import Mathlib

/-!
A shallow embedding, in Lean 4, of the parsing and polling core of the
Going-Dark web portal (`portal_app/portal.py`) and of the NTP peer selector
of the config panel (`config_app/config.py`).

Python strings are modelled as Lean `String` / `List Char`; Python sets of
connection names as `List String` with membership semantics; machine floats
that only ever hold short decimal literals are modelled exactly as `ℚ`;
fallible parsing steps return `Option`.  Each definition mirrors one Python
function and carries its name.
-/

namespace GoingDark

/-! ## Generic helpers shared by the embeddings -/

/-- `containsSub sub l`: `sub` occurs as a contiguous run inside `l`
(the model of Python's `sub in s` substring test). -/
def containsSub (sub : List Char) : List Char → Bool
  | [] => List.isPrefixOf sub []
  | c :: cs => List.isPrefixOf sub (c :: cs) || containsSub sub cs

/-- Split a character list at every newline character, the model of
`str.splitlines` for the newline-delimited tool output handled here
(the exotic unicode line breaks Python also honours do not occur in it). -/
def splitLinesAux (cur : List Char) : List Char → List (List Char)
  | [] => [cur.reverse]
  | c :: cs => if c = '\n' then cur.reverse :: splitLinesAux [] cs else splitLinesAux (c :: cur) cs

/-- `pySplitlines s`: Python `s.splitlines()` — empty input gives no lines,
and a trailing newline does not create a final empty line. -/
def pySplitlines (s : List Char) : List (List Char) :=
  if s = [] then []
  else
    let parts := splitLinesAux [] s
    match parts.getLast? with
    | some l => if l = [] then parts.dropLast else parts
    | none => parts

/-- The whitespace class of Python's `str.strip` / regex `\s`
restricted to the ASCII characters that can occur in tool output. -/
def isPyWs (c : Char) : Bool :=
  c = ' ' || c = '\t' || c = '\n' || c = '\r' || c = '\x0b' || c = '\x0c'

/-- Python `str.lstrip()` on a character list. -/
def pyLstrip (s : List Char) : List Char := s.dropWhile isPyWs

/-- Python `str.strip()` on a character list. -/
def pyStrip (s : List Char) : List Char := (s.dropWhile isPyWs).reverse.dropWhile isPyWs |>.reverse

/-- Python `str.lower()` per character (`.lower()` only ever sees ASCII
profile names here, where it agrees with `Char.toLower`). -/
def pyLower (s : List Char) : List Char := s.map Char.toLower

/-- Python `str.strip().lower()` as used for connection-name normalisation. -/
def normName (s : String) : String := ⟨pyLower (pyStrip s.data)⟩

/-! ## §5 of portal.py — stabilization wait (`_wait_nm_state_exact`)

The Python loop polls `active_connection_names()` every `interval` seconds
until the target condition has held on two consecutive polls or `timeout`
seconds have elapsed.  The embedding replaces the wall clock by `fuel`, the
number of polls at which the timeout test `time.time() - t0 >= timeout` is
still false (so poll number `fuel` — 0-indexed — is the first poll at which
the timeout fires), and replaces the subprocess call by a stream
`f : Nat → List String` giving the snapshot observed at each poll.  The
result is extended with the index of the last poll taken, so that "returned
at the n-th poll" is expressible. -/

/-- One poll's test: every required-present name is in the snapshot and no
required-absent name is (`ok_present and ok_absent` in the source; the
Python `if target_present else True` guard agrees with `List.all` on `[]`). -/
def condHolds (present absent : List String) (names : List String) : Bool :=
  (present.all fun t => names.contains t) && (absent.all fun t => !names.contains t)

/-- The polling loop of `_wait_nm_state_exact`, fuel-indexed.
Arguments after the stream: fuel, current poll index, current `stable_hits`. -/
def waitAux (present absent : List String) (f : Nat → List String) :
    Nat → Nat → Nat → Nat × List String × Bool
  | fuel, i, hits =>
    let names := f i
    if condHolds present absent names then
      if hits + 1 ≥ 2 then (i, names, true)
      else
        match fuel with
        | 0 => (i, names, false)
        | fuel' + 1 => waitAux present absent f fuel' (i + 1) (hits + 1)
    else
      match fuel with
      | 0 => (i, names, false)
      | fuel' + 1 => waitAux present absent f fuel' (i + 1) 0

/-- `_wait_nm_state_exact(target_present, target_absent, ...)`: normalises the
target names with `.strip().lower()` and runs the polling loop from poll 0
with `stable_hits = 0`. -/
def wait_nm_state_exact (target_present target_absent : List String)
    (f : Nat → List String) (fuel : Nat) : Nat × List String × Bool :=
  waitAux (target_present.map normName) (target_absent.map normName) f fuel 0 0

/-! ## §4 of portal.py — `active_connection_names` -/

/-- Python `line.split(":", 1)` padded to two fields, as in
`(line.split(":", 1) + ["", ""])[:2]`: the part before the first colon and
everything after it (a line without a colon yields an empty second field). -/
def splitColonOnce (s : List Char) : List Char × List Char :=
  match s with
  | [] => ([], [])
  | ':' :: rest => ([], rest)
  | c :: rest =>
    let (a, b) := splitColonOnce rest
    (c :: a, b)

/-- Insert a name into the accumulated set if it is not already present
(the model of Python `set.add`; only membership is ever consumed). -/
def setAdd (names : List String) (n : String) : List String :=
  if names.contains n then names else names ++ [n]

/-- The parsing body of `active_connection_names` applied to the captured
stdout of `nmcli -t -f NAME,ACTIVE con show --active`. -/
def parseActiveNames (out : String) : List String :=
  (pySplitlines (pyStrip out.data)).foldl
    (fun names line =>
      let (name, active) := splitColonOnce line
      if List.isPrefixOf "yes".data (pyLower active) then setAdd names (normName ⟨name⟩)
      else names)
    []

/-- `active_connection_names()`: any failure of the subprocess call
(modelled as `none` stdout) yields the empty set. -/
def active_connection_names : Option String → List String
  | none => []
  | some out => parseActiveNames out

/-! ## §6 of portal.py — `dbm_to_pct`

The dBm value reaching `dbm_to_pct` is the capture of the regex
`-?\d+(\.\d+)?`, a short decimal literal; it is modelled exactly as a
rational.  Python's `round` rounds halves to the nearest even integer. -/

/-- Python `round(x)` on a real value: nearest integer, halves to even. -/
def pyRoundHalfEven (q : ℚ) : ℤ :=
  if q - ⌊q⌋ < 1 / 2 then ⌊q⌋
  else if 1 / 2 < q - ⌊q⌋ then ⌊q⌋ + 1
  else if 2 ∣ ⌊q⌋ then ⌊q⌋ else ⌊q⌋ + 1

/-- `dbm_to_pct`: `pct = int(round(2 * (v + 100)))`, clamped into `[0, 100]`
(the Python function returns the decimal string of this number). -/
def dbm_to_pct (dbm : ℚ) : ℕ :=
  (min 100 (max 0 (pyRoundHalfEven (2 * (dbm + 100))))).toNat

/-- The exact value of a captured decimal literal `-?\d+(\.\d+)?`:
an integer mantissa and a power-of-ten scale. -/
structure Decimal where
  num : ℤ
  scale : ℕ
deriving DecidableEq, Repr

/-- The rational value of a captured decimal literal. -/
def Decimal.toRat (d : Decimal) : ℚ := (d.num : ℚ) / ((10 ^ d.scale : ℕ) : ℚ)

/-- Round half to even on the exact fraction `n / d` (`d` positive), in
integer arithmetic (Lean's integer `/` rounds toward minus infinity for a
positive divisor, giving the floor). -/
def roundHalfEvenPair (n d : ℤ) : ℤ :=
  if 2 * (n - n / d * d) < d then n / d
  else if d < 2 * (n - n / d * d) then n / d + 1
  else if 2 ∣ n / d then n / d else n / d + 1

/-- `dbm_to_pct` evaluated on the exact captured literal, in integer
arithmetic: `2 * (v + 100) = (2 * num + 200 * 10 ^ scale) / 10 ^ scale`.
`dbm_to_pct_frac_toRat` proves it agrees with `dbm_to_pct` on the
literal's rational value. -/
def dbm_to_pct_frac (d : Decimal) : ℕ :=
  (min 100 (max 0 (roundHalfEvenPair (2 * d.num + 200 * (10 ^ d.scale : ℕ))
    ((10 ^ d.scale : ℕ) : ℤ)))).toNat

/-! ## §6 of portal.py — SSID validation -/

def _HEADER_PREFIX_BLACKLIST : List String :=
  ["Supported rates", "Extended supported rates", "capability", "DS Parameter set",
   "HT capabilities", "HT operation", "VHT capabilities", "VHT operation",
   "HE capabilities", "HE operation", "BSS Load", "Country"]

/-- UTF-8 byte length of a character list (Python `len(s.encode("utf-8"))`;
the strict encode never fails on Lean `Char`, which carries no surrogates). -/
def utf8Len (s : List Char) : ℕ := (s.map Char.utf8Size).sum

/-- Python `str.isprintable` per character, modelled exactly on the control
ranges that tool output can contain (C0 controls, DEL, C1 controls); other
non-ASCII characters are treated as printable, the Unicode category tables
being out of the model's scope. -/
def pyPrintable (c : Char) : Bool :=
  !(c.toNat < 0x20 || c.toNat == 0x7f || (0x80 ≤ c.toNat && c.toNat ≤ 0x9f))

/-- `_valid_ssid` from portal.py, on the already-stripped SSID text. -/
def _valid_ssid (ssid : List Char) : Bool :=
  if ssid = [] then false
  else if utf8Len ssid = 0 || 32 < utf8Len ssid then false
  else if !ssid.all pyPrintable || ssid.contains '\n' || ssid.contains '\r'
      || ssid.contains '\t' then false
  else
    let pre := pyStrip (ssid.takeWhile (· ≠ ':'))
    !(_HEADER_PREFIX_BLACKLIST.any fun bad => List.isPrefixOf bad.data pre)

/-! ## §6 of portal.py — `classify_security`

A scan block is a list of lines (the Python code joins the lines with
`"\n"` and searches with regexes whose `.` does not cross a newline, so
every test below is a per-line test; `"\n\tWPA:" in t` means a line after
the first that begins with `"\tWPA:"`). -/

/-- The suffix of `l` after the first occurrence of `sub`, if any. -/
def afterFirst (sub : List Char) : List Char → Option (List Char)
  | [] => if sub = [] then some [] else none
  | c :: cs =>
    if List.isPrefixOf sub (c :: cs) then some ((c :: cs).drop sub.length)
    else afterFirst sub cs

/-- `has_rsn`: the literal `"RSN:"` occurs somewhere in the block. -/
def hasRSN (blk : List (List Char)) : Bool :=
  blk.any fun ln => containsSub "RSN:".data ln

/-- `has_wpa`: `"\n\tWPA:" in t or "\n WPA:" in t` on the joined block. -/
def hasWPA (blk : List (List Char)) : Bool :=
  (blk.drop 1).any fun ln =>
    List.isPrefixOf "\tWPA:".data ln || List.isPrefixOf " WPA:".data ln

/-- One line's test for `^\s*capability:\s.*Privacy` (multiline search). -/
def capPrivacyLine (ln : List Char) : Bool :=
  let rest := pyLstrip ln
  if List.isPrefixOf "capability:".data rest then
    match rest.drop 11 with
    | [] => false
    | c :: cs => isPyWs c && containsSub "Privacy".data cs
  else false

/-- One line's test for `Authentication suites:.*<marker>`. -/
def akmLine (marker : List Char) (ln : List Char) : Bool :=
  match afterFirst "Authentication suites:".data ln with
  | some rest => containsSub marker rest
  | none => false

/-- Whether some line of the block carries the given authentication-suite
marker after `Authentication suites:`. -/
def akmMarker (marker : String) (blk : List (List Char)) : Bool :=
  blk.any (akmLine marker.data)

/-- `has_gcmp256`: one of the strong-cipher literals occurs in the block. -/
def hasGcmp256 (blk : List (List Char)) : Bool :=
  blk.any fun ln =>
    containsSub "GCMP-256".data ln || containsSub "BIP-GMAC-256".data ln
      || containsSub "BIP-GCMP-256".data ln

/-- `akm_9_or_13`: suite selector `00-0f-ac:(9|13)` occurs in the block. -/
def akm9or13 (blk : List (List Char)) : Bool :=
  blk.any fun ln =>
    containsSub "00-0f-ac:9".data ln || containsSub "00-0f-ac:13".data ln

/-- `classify_security` from portal.py, on a block given as its lines. -/
def classify_security (blk : List (List Char)) : String :=
  if akmMarker "OWE" blk then "OWE (no password)"
  else if hasRSN blk || hasWPA blk then
    if akmMarker "802.1X" blk then
      if hasGcmp256 blk || akm9or13 blk then "WPA3-Enterprise" else "WPA2-Enterprise"
    else if akmMarker "SAE" blk then "WPA3"
    else if akmMarker "PSK" blk then "WPA2"
    else if hasWPA blk && !hasRSN blk then "WPA"
    else "secured"
  else if blk.any capPrivacyLine then "WEP"
  else "open"

/-! ## §6 of portal.py — `parse_iw_scan_dump` -/

/-- The value (untrimmed) of an `^\s*SSID:\s*(.*)\s*$` line; the Python
caller strips the captured group, so the raw remainder is returned here and
stripped at the use site. -/
def ssidLineValue (ln : List Char) : Option (List Char) :=
  let rest := pyLstrip ln
  if List.isPrefixOf "SSID:".data rest then some (rest.drop 5) else none

/-- Numeric value of a digit run. -/
def digitsVal (ds : List Char) : ℕ :=
  ds.foldl (fun a c => 10 * a + (c.toNat - 48)) 0

/-- The captured dBm value of an `^\s*signal:\s*(-?\d+(\.\d+)?)\s*dBm` line:
optional minus sign, an integer part, an optional fractional part that must
hold at least one digit, then optional whitespace and the literal `dBm`. -/
def signalLineValue (ln : List Char) : Option Decimal :=
  let rest := pyLstrip ln
  if List.isPrefixOf "signal:".data rest then
    let r1 := (rest.drop 7).dropWhile isPyWs
    let (neg, r2) := match r1 with
      | '-' :: t => (true, t)
      | t => (false, t)
    let ds := r2.takeWhile Char.isDigit
    let r3 := r2.dropWhile Char.isDigit
    if ds = [] then none
    else
      let (fracDigits, r4) := match r3 with
        | '.' :: t =>
          let fs := t.takeWhile Char.isDigit
          if fs = [] then (([] : List Char), r3)
          else (fs, t.dropWhile Char.isDigit)
        | t => (([] : List Char), t)
      if List.isPrefixOf "dBm".data (r4.dropWhile isPyWs) then
        let mant : ℤ := digitsVal ds * 10 ^ fracDigits.length + digitsVal fracDigits
        some { num := if neg then -mant else mant, scale := fracDigits.length }
      else none
  else none

/-- The block accumulator of `parse_iw_scan_dump`: a new block starts at
every line beginning with `"BSS "`; the lines before the first such line
form a block of their own. -/
def pushBlocksAux (acc : List (List Char)) : List (List Char) → List (List (List Char))
  | [] => if acc = [] then [] else [acc.reverse]
  | ln :: rest =>
    if List.isPrefixOf "BSS ".data ln && !acc.isEmpty then
      acc.reverse :: pushBlocksAux [ln] rest
    else pushBlocksAux (ln :: acc) rest

/-- One parsed scan record (`{"ssid": ..., "signal": ..., "security": ...}`;
`signal = none` models the empty-string signal of a block without a parsable
`signal:` line, and `inuse` is stamped at the end of the parse). -/
structure NetRec where
  ssid : String
  signal : Option ℕ
  security : String
  inuse : Bool
deriving DecidableEq, Repr

/-- `sigval` from the dedup step of `parse_iw_scan_dump`:
`int(s) if s.isdigit() else -1`. -/
def sigval (r : NetRec) : ℤ :=
  match r.signal with
  | some n => n
  | none => -1

/-- The record a block contributes, if any: a block without an SSID line, or
whose stripped SSID fails `_valid_ssid`, is discarded. -/
def blockObs (blk : List (List Char)) : Option NetRec :=
  match blk.findSome? ssidLineValue with
  | none => none
  | some raw =>
    let ssid := pyStrip raw
    if !_valid_ssid ssid then none
    else
      some { ssid := ⟨ssid⟩
             signal := (blk.findSome? signalLineValue).map dbm_to_pct_frac
             security := classify_security blk
             inuse := false }

/-- The dict update of `parse_iw_scan_dump`: a first observation of an SSID
is appended; a later observation replaces the stored one exactly when its
signal value is strictly higher. -/
def dedupStep (m : List NetRec) (r : NetRec) : List NetRec :=
  match m.find? fun p => p.ssid == r.ssid with
  | none => m ++ [r]
  | some prev =>
    if sigval prev < sigval r then m.map fun p => if p.ssid == r.ssid then r else p
    else m

/-- Stable insertion for the descending sort by `sigval`
(`nets.sort(key=..., reverse=True)` — Python's sort is stable). -/
def insertDesc (r : NetRec) : List NetRec → List NetRec
  | [] => [r]
  | x :: xs => if sigval x ≤ sigval r then r :: x :: xs else x :: insertDesc r xs

/-- Stable descending sort by `sigval`. -/
def sortDesc (l : List NetRec) : List NetRec := l.foldr insertDesc []

/-- The final `n["inuse"] = (cur_ssid is not None and n["ssid"] == cur_ssid)`
stamp; `cur_ssid` is the result of `get_current_ssid_connect_iface_only()`,
an external query modelled as an input. -/
def setInuse (cur_ssid : Option String) (r : NetRec) : NetRec :=
  { r with inuse := match cur_ssid with
                    | some s => r.ssid == s
                    | none => false }

/-- The valid observations of a scan dump, in block order. -/
def obsOf (text : String) : List NetRec :=
  (pushBlocksAux [] (pySplitlines text.data)).filterMap blockObs

/-- `parse_iw_scan_dump` from portal.py. -/
def parse_iw_scan_dump (cur_ssid : Option String) (text : String) : List NetRec :=
  (sortDesc ((obsOf text).foldl dedupStep [])).map (setInuse cur_ssid)

/-- `if sigval(new) > sigval(prev)` as a two-place chooser. -/
def chooseBetter (a b : NetRec) : NetRec := if sigval a < sigval b then b else a

/-- The observation the dict keeps for one SSID, given that SSID's
observations in block order: the first one, replaced by every strictly
better one. -/
def bestFirst : List NetRec → Option NetRec
  | [] => none
  | r :: rs => some (rs.foldl chooseBetter r)

/-- `bestFirst` continued from an optional already-stored record. -/
def bestFrom : Option NetRec → List NetRec → Option NetRec
  | none, l => bestFirst l
  | some p, l => some (l.foldl chooseBetter p)

/-! ## §12 of portal.py — hotspot configuration routes

The handlers read two form fields and shell out to `nmcli`; the result of
each external command is an input of the model (its return code), and the
model additionally returns the list of external commands invoked, in order,
so that "rejected before invoking any external tool" is expressible.  The
response is modelled by its HTTP status, its `error` message when one is
set, and the `settled`/`active` fields of the activation reply (the JSON
presents `active` sorted; only its membership is modelled). -/

/-- The outcome of one `subprocess.run` of nmcli: its return code. -/
structure NmResult where
  rc : Int
deriving DecidableEq, Repr

/-- One external nmcli invocation, as identified by its argument vector. -/
inductive NmCmd
  | modSsid (ssid : String)
  | modKeyMgmt
  | modPsk (psk : String)
  | conUp (name : String)
deriving DecidableEq, Repr

/-- The modelled HTTP response of a hotspot route. -/
structure HttpResponse where
  status : Nat
  error : Option String := none
  settled : Option Bool := none
  active : Option (List String) := none
deriving DecidableEq, Repr

/-- `_nm_modify_hotspot_psk`: runs the key-mgmt modify, stops there on a
non-zero return code, otherwise runs the psk modify; returns the last
result and the commands run. -/
def _nm_modify_hotspot_psk (psk : String) (kmRes pskRes : NmResult) :
    NmResult × List NmCmd :=
  if kmRes.rc ≠ 0 then (kmRes, [NmCmd.modKeyMgmt])
  else (pskRes, [NmCmd.modKeyMgmt, NmCmd.modPsk psk])

/-- The shared password phase of `hotspot_config` and `hotspot_up`: an empty
password is skipped; a length outside 8–63 is rejected with the 400 message
before any command; otherwise the psk modify runs and a failure is a plain
400.  Returns the early response, if any, and the commands run. -/
def hotspotPskPhase (password : String) (kmRes pskRes : NmResult) :
    Option HttpResponse × List NmCmd :=
  if password = "" then (none, [])
  else if password.length < 8 ∨ 63 < password.length then
    (some { status := 400, error := some "Password must be 8–63 characters for WPA-PSK" }, [])
  else
    let (r, cs) := _nm_modify_hotspot_psk password kmRes pskRes
    if r.rc ≠ 0 then (some { status := 400 }, cs) else (none, cs)

/-- The shared SSID phase: a non-empty (stripped) SSID runs the ssid modify
first, and its failure is a 400.  Returns the stripped ssid, the early
response, if any, and the commands run. -/
def hotspotSsidPhase (form_ssid : Option String) (ssidRes : NmResult) :
    String × Option HttpResponse × List NmCmd :=
  let ssid : String := ⟨pyStrip (form_ssid.getD "").data⟩
  if ssid = "" then (ssid, none, [])
  else if ssidRes.rc ≠ 0 then (ssid, some { status := 400 }, [NmCmd.modSsid ssid])
  else (ssid, none, [NmCmd.modSsid ssid])

/-- `hotspot_config` (POST /hotspot/config). -/
def hotspot_config (form_ssid form_password : Option String)
    (ssidRes kmRes pskRes : NmResult) : HttpResponse × List NmCmd :=
  let (_, e1, cs1) := hotspotSsidPhase form_ssid ssidRes
  match e1 with
  | some resp => (resp, cs1)
  | none =>
    let (e2, cs2) := hotspotPskPhase (form_password.getD "") kmRes pskRes
    match e2 with
    | some resp => (resp, cs1 ++ cs2)
    | none => ({ status := 200 }, cs1 ++ cs2)

/-- `hotspot_up` (POST /hotspot/up): the config phases, then
`nm_con_up(HOTSPOT_CONN)` and the stabilization wait on
`target_present={"Hotspot"}`; 200 on a zero return code of the activation,
500 otherwise. -/
def hotspot_up (form_ssid form_password : Option String)
    (ssidRes kmRes pskRes upRes : NmResult)
    (f : Nat → List String) (fuel : Nat) : HttpResponse × List NmCmd :=
  let (_, e1, cs1) := hotspotSsidPhase form_ssid ssidRes
  match e1 with
  | some resp => (resp, cs1)
  | none =>
    let (e2, cs2) := hotspotPskPhase (form_password.getD "") kmRes pskRes
    match e2 with
    | some resp => (resp, cs1 ++ cs2)
    | none =>
      let w := wait_nm_state_exact ["Hotspot"] [] f fuel
      ({ status := if upRes.rc = 0 then 200 else 500
         settled := some w.2.2
         active := some w.2.1 },
       cs1 ++ cs2 ++ [NmCmd.conUp "Hotspot"])

/-! ## §4 of config.py — `_ntp_last_peer`'s `pick_best`

The selector works on the data lines of `ntpq -pn` output.  Python
`int(s, 8)` is modelled on its only shapes that a whitespace-split column
can take here: an optional sign followed by octal digits (the `0o` prefix
and underscore separators never occur in a reach column). -/

/-- Octal digit test. -/
def isOctDigit (c : Char) : Bool := '0' ≤ c && c ≤ '7'

/-- Python `int(s, 8)` on a plain signed octal numeral; `none` models the
`ValueError` swallowed by the caller. -/
def pyIntOctal (s : List Char) : Option ℤ :=
  let t := pyStrip s
  let (neg, ds) := match t with
    | '-' :: r => (true, r)
    | '+' :: r => (false, r)
    | r => (false, r)
  if ds ≠ [] ∧ ds.all isOctDigit then
    let v : ℤ := ds.foldl (fun a c => 8 * a + ((c.toNat : ℤ) - 48)) 0
    some (if neg then -v else v)
  else none

/-- Python `str.split()` with no argument: whitespace runs separate the
fields, no empty fields are produced. -/
def pySplitWsAux (cur : List Char) : List Char → List (List Char)
  | [] => if cur = [] then [] else [cur.reverse]
  | c :: cs =>
    if isPyWs c then
      if cur = [] then pySplitWsAux [] cs else cur.reverse :: pySplitWsAux [] cs
    else pySplitWsAux (c :: cur) cs

/-- Python `ln.split()`. -/
def pySplitWs (s : List Char) : List (List Char) := pySplitWsAux [] s

/-- `ln.lstrip().startswith('*')`: the selected/active peer mark. -/
def lineIsStar (ln : List Char) : Bool :=
  match pyLstrip ln with
  | '*' :: _ => true
  | _ => false

/-- `ln.lstrip().startswith(('+','o'))`: the candidate peer marks. -/
def lineIsCand (ln : List Char) : Bool :=
  match pyLstrip ln with
  | '+' :: _ => true
  | 'o' :: _ => true
  | _ => false

/-- The reach test of the third fallback: at least seven whitespace-split
columns and a seventh column that parses as a positive octal number
(a parse failure is swallowed and the line skipped). -/
def lineReach (ln : List Char) : Bool :=
  let cols := pySplitWs ln
  if 7 ≤ cols.length then
    match pyIntOctal (cols.getD 6 []) with
    | some v => decide (0 < v)
    | none => false
  else false

/-- `pick_best` from `_ntp_last_peer` in config.py. -/
def pick_best (lines : List (List Char)) : Option (List Char) :=
  match lines.find? lineIsStar with
  | some ln => some ln
  | none =>
    match lines.find? lineIsCand with
    | some ln => some ln
    | none =>
      match lines.find? lineReach with
      | some ln => some ln
      | none => lines.head?

/-! ## Concrete inputs used by the closed test theorems -/

/-- Two scan blocks with the same SSID `Home` at −40 dBm and −70 dBm. -/
def homeScanText : String :=
  "BSS 11:22:33:44:55:66(on wlan0)\n\tsignal: -40.00 dBm\n\tSSID: Home\nBSS aa:bb:cc:dd:ee:ff(on wlan0)\n\tsignal: -70.00 dBm\n\tSSID: Home\n"

/-- A block whose SSID text is the misaligned header `capability: foo`. -/
def capabilityScanText : String :=
  "BSS 11:22:33:44:55:66(on wlan0)\n\tsignal: -40.00 dBm\n\tSSID: capability: foo\n"

/-- A truncated, malformed scan dump. -/
def malformedScanText : String :=
  "BSS 11:22:33:44:55:66(on wl\n\tsignal: -4x\n\tSSI"

/-- A block carrying an RSN element whose suite line holds both the
enterprise marker `802.1X` and the marker `SAE`. -/
def saeEnterpriseBlock : List (List Char) :=
  ["BSS 11:22:33:44:55:66(on wlan0)".data,
   "\tRSN:\t * Version: 1".data,
   "\t\t * Authentication suites: 802.1X SAE".data]

/-- A WPA2/WPA3 transition-mode block: legacy WPA element, RSN element, and
a suite line holding both PSK and SAE. -/
def wpa3TransitionBlock : List (List Char) :=
  ["BSS 11:22:33:44:55:66(on wlan0)".data,
   "\tWPA:\t * Version: 1".data,
   "\tRSN:\t * Version: 1".data,
   "\t\t * Authentication suites: PSK SAE".data]

/-! ## Lemmas about the stabilization wait -/

lemma waitAux_zero (P A : List String) (f : Nat → List String) (i hits : Nat) :
    waitAux P A f 0 i hits =
      if condHolds P A (f i) then
        if hits + 1 ≥ 2 then (i, f i, true) else (i, f i, false)
      else (i, f i, false) := rfl

lemma waitAux_succ (P A : List String) (f : Nat → List String) (fuel i hits : Nat) :
    waitAux P A f (fuel + 1) i hits =
      if condHolds P A (f i) then
        if hits + 1 ≥ 2 then (i, f i, true) else waitAux P A f fuel (i + 1) (hits + 1)
      else waitAux P A f fuel (i + 1) 0 := rfl

/-- When the loop returns `settled = true` it does so at a poll whose
condition held and whose predecessor poll's condition also held. -/
lemma waitAux_true_sound (P A : List String) (f : Nat → List String) :
    ∀ (fuel i hits j : Nat) (ns : List String),
      hits ≤ 1 →
      (hits = 1 → 1 ≤ i ∧ condHolds P A (f (i - 1)) = true) →
      waitAux P A f fuel i hits = (j, ns, true) →
      1 ≤ j ∧ condHolds P A (f j) = true ∧ condHolds P A (f (j - 1)) = true ∧ ns = f j := by
  intro fuel
  induction fuel with
  | zero =>
    intro i hits j ns h1 h2 heq
    rw [waitAux_zero] at heq
    split at heq
    · split at heq
      · rename_i hc hh
        simp only [Prod.mk.injEq] at heq
        obtain ⟨rfl, rfl, -⟩ := heq
        have : hits = 1 := by omega
        obtain ⟨hi, hprev⟩ := h2 this
        exact ⟨hi, hc, hprev, rfl⟩
      · simp at heq
    · simp at heq
  | succ fuel ih =>
    intro i hits j ns h1 h2 heq
    rw [waitAux_succ] at heq
    split at heq
    · split at heq
      · rename_i hc hh
        simp only [Prod.mk.injEq] at heq
        obtain ⟨rfl, rfl, -⟩ := heq
        have : hits = 1 := by omega
        obtain ⟨hi, hprev⟩ := h2 this
        exact ⟨hi, hc, hprev, rfl⟩
      · rename_i hc hh
        have hh0 : hits = 0 := by omega
        subst hh0
        exact ih (i + 1) 1 j ns (by omega) (fun _ => ⟨by omega, by simpa using hc⟩) heq
    · exact ih (i + 1) 0 j ns (by omega) (by omega) heq

/-- When no poll ever satisfies the condition, the loop consumes all its
fuel and reports the last snapshot unsettled. -/
lemma waitAux_never (P A : List String) (f : Nat → List String)
    (h : ∀ k, condHolds P A (f k) = false) :
    ∀ (fuel i hits : Nat), waitAux P A f fuel i hits = (i + fuel, f (i + fuel), false) := by
  intro fuel
  induction fuel with
  | zero => intro i hits; rw [waitAux_zero, h i]; simp
  | succ fuel ih =>
    intro i hits
    rw [waitAux_succ, h i, if_neg (by simp)]
    rw [ih (i + 1) 0]
    have hadd : i + 1 + fuel = i + (fuel + 1) := by omega
    rw [hadd]

/-- When every poll satisfies the condition, the loop settles at poll 1. -/
lemma waitAux_always (P A : List String) (f : Nat → List String)
    (h : ∀ k, condHolds P A (f k) = true) :
    ∀ (fuel : Nat), 1 ≤ fuel → waitAux P A f fuel 0 0 = (1, f 1, true) := by
  intro fuel hfuel
  obtain ⟨k, rfl⟩ : ∃ k, fuel = k + 1 := ⟨fuel - 1, by omega⟩
  rw [waitAux_succ, h 0, if_pos rfl, if_neg (by omega)]
  cases k with
  | zero => rw [waitAux_zero, h 1]; simp
  | succ k => rw [waitAux_succ, h 1]; simp

/-- C1: the stabilization wait returns `settled = true` only after the
target condition (every required-present name active, every required-absent
name inactive) has held on two consecutive polls.  First conjunct: whenever
the wait settles, the condition held at the returning poll and at the poll
before it.  Second conjunct: a condition first holding on poll 3 and again
on poll 4 (1-indexed) settles exactly at poll 4.  Third conjunct: an
isolated hit at poll 1 followed by a miss is forgotten — the wait still
settles only at poll 4. -/
theorem stabilization_settles_only_after_two_consecutive_polls :
    (∀ (p a : List String) (f : Nat → List String) (fuel j : Nat) (ns : List String),
        wait_nm_state_exact p a f fuel = (j, ns, true) →
        1 ≤ j ∧ condHolds (p.map normName) (a.map normName) (f j) = true
          ∧ condHolds (p.map normName) (a.map normName) (f (j - 1)) = true)
    ∧
    (∀ (p a : List String) (f : Nat → List String) (fuel : Nat),
        condHolds (p.map normName) (a.map normName) (f 0) = false →
        condHolds (p.map normName) (a.map normName) (f 1) = false →
        condHolds (p.map normName) (a.map normName) (f 2) = true →
        condHolds (p.map normName) (a.map normName) (f 3) = true →
        3 ≤ fuel →
        wait_nm_state_exact p a f fuel = (3, f 3, true))
    ∧
    (∀ (p a : List String) (f : Nat → List String) (fuel : Nat),
        condHolds (p.map normName) (a.map normName) (f 0) = true →
        condHolds (p.map normName) (a.map normName) (f 1) = false →
        condHolds (p.map normName) (a.map normName) (f 2) = true →
        condHolds (p.map normName) (a.map normName) (f 3) = true →
        3 ≤ fuel →
        wait_nm_state_exact p a f fuel = (3, f 3, true)) := by
  refine ⟨?_, ?_, ?_⟩
  · intro p a f fuel j ns heq
    obtain ⟨hj, hcur, hprev, -⟩ :=
      waitAux_true_sound (p.map normName) (a.map normName) f fuel 0 0 j ns
        (by omega) (by omega) heq
    exact ⟨hj, hcur, hprev⟩
  · intro p a f fuel h0 h1 h2 h3 hfuel
    obtain ⟨k, rfl⟩ : ∃ k, fuel = k + 3 := ⟨fuel - 3, by omega⟩
    show waitAux _ _ f (k + 3) 0 0 = (3, f 3, true)
    rw [waitAux_succ, h0, if_neg (by simp)]
    rw [waitAux_succ, h1, if_neg (by simp)]
    rw [waitAux_succ, h2, if_pos rfl, if_neg (by omega)]
    cases k with
    | zero => rw [waitAux_zero, h3]; simp
    | succ k => rw [waitAux_succ, h3]; simp
  · intro p a f fuel h0 h1 h2 h3 hfuel
    obtain ⟨k, rfl⟩ : ∃ k, fuel = k + 3 := ⟨fuel - 3, by omega⟩
    show waitAux _ _ f (k + 3) 0 0 = (3, f 3, true)
    rw [waitAux_succ, h0, if_pos rfl, if_neg (by omega)]
    rw [waitAux_succ, h1, if_neg (by simp)]
    rw [waitAux_succ, h2, if_pos rfl, if_neg (by omega)]
    cases k with
    | zero => rw [waitAux_zero, h3]; simp
    | succ k => rw [waitAux_succ, h3]; simp

/-- Witness for C1: with the hotspot profile reported active from poll 3
on (0-indexed poll 2), the wait over ten polls of budget settles at poll 4
(0-indexed 3). -/
theorem stabilization_settles_only_after_two_consecutive_polls_witness :
    wait_nm_state_exact ["Hotspot"] []
      (fun i => if 2 ≤ i then ["hotspot"] else []) 10 = (3, ["hotspot"], true) :=
  stabilization_settles_only_after_two_consecutive_polls.2.1 ["Hotspot"] []
    (fun i => if 2 ≤ i then ["hotspot"] else []) 10
    (by decide) (by decide) (by decide) (by decide) (by decide)

/-- C6: a stabilization wait whose condition is never satisfied does not
fail: when the timeout fires (fuel runs out) it returns `settled = false`
together with the very last polled snapshot.  Totality is inherent in the
model being a Lean function. -/
theorem stabilization_timeout_returns_unsettled :
    ∀ (p a : List String) (f : Nat → List String) (fuel : Nat),
      (∀ k, condHolds (p.map normName) (a.map normName) (f k) = false) →
      wait_nm_state_exact p a f fuel = (fuel, f fuel, false) := by
  intro p a f fuel h
  have := waitAux_never (p.map normName) (a.map normName) f h fuel 0 0
  simpa [wait_nm_state_exact] using this

/-- Witness for C6: a target that requires the hotspot present while the
poll always reports nothing runs out its five polls of budget and reports
the last (empty) snapshot unsettled. -/
theorem stabilization_timeout_returns_unsettled_witness :
    wait_nm_state_exact ["Hotspot"] [] (fun _ => []) 5 = (5, [], false) :=
  stabilization_timeout_returns_unsettled ["Hotspot"] [] (fun _ => [])
    5 (by
        intro k
        show condHolds (List.map normName ["Hotspot"]) (List.map normName []) [] = false
        decide)

/-- C10 (implicit): with only required-absent names and a status query that
fails on every poll — `active_connection_names` turns any failure into the
empty set — the wait settles at the second poll, so `settled = true` is
reported although the real state was never observed. -/
theorem stabilization_settles_on_failing_query :
    ∀ (a : List String) (fuel : Nat), 1 ≤ fuel →
      active_connection_names none = [] ∧
      wait_nm_state_exact [] a (fun _ => active_connection_names none) fuel
        = (1, active_connection_names none, true) := by
  intro a fuel hfuel
  refine ⟨rfl, ?_⟩
  show waitAux (List.map normName []) (a.map normName)
    (fun _ => active_connection_names none) fuel 0 0 = _
  refine waitAux_always _ _ _ ?_ fuel hfuel
  intro k
  simp [condHolds, active_connection_names]

/-- Witness for C10: waiting for the Tor proxy to disappear while every
status query fails settles at the second poll with the empty snapshot. -/
theorem stabilization_settles_on_failing_query_witness :
    active_connection_names none = [] ∧
    wait_nm_state_exact [] ["torproxy"] (fun _ => active_connection_names none) 5
      = (1, active_connection_names none, true) :=
  stabilization_settles_on_failing_query ["torproxy"] 5 (by decide)

/-! ## Lemmas about `dbm_to_pct` -/

lemma pyRoundHalfEven_bounds (q : ℚ) :
    ⌊q⌋ ≤ pyRoundHalfEven q ∧ pyRoundHalfEven q ≤ ⌊q⌋ + 1 := by
  unfold pyRoundHalfEven
  split_ifs <;> omega

lemma pyRoundHalfEven_mono {x y : ℚ} (h : x ≤ y) :
    pyRoundHalfEven x ≤ pyRoundHalfEven y := by
  have hf : ⌊x⌋ ≤ ⌊y⌋ := Int.floor_le_floor h
  rcases eq_or_lt_of_le hf with heq | hlt
  · unfold pyRoundHalfEven
    rw [← heq]
    have hxy : x - ⌊x⌋ ≤ y - ⌊x⌋ := by linarith
    split_ifs <;> first | omega | linarith
  · have h1 := (pyRoundHalfEven_bounds x).2
    have h2 := (pyRoundHalfEven_bounds y).1
    omega

lemma pyRoundHalfEven_intCast (n : ℤ) : pyRoundHalfEven (n : ℚ) = n := by
  unfold pyRoundHalfEven
  rw [Int.floor_intCast]
  simp

/-- Integer-pair rounding agrees with rational rounding on `n / d`. -/
lemma roundHalfEvenPair_eq (n : ℤ) (d : ℕ) (hd : 0 < d) :
    roundHalfEvenPair n (d : ℤ) = pyRoundHalfEven ((n : ℚ) / (d : ℚ)) := by
  have hdQ : (0 : ℚ) < (d : ℚ) := by exact_mod_cast hd
  have hfl : ⌊(n : ℚ) / (d : ℚ)⌋ = n / (d : ℤ) := Rat.floor_intCast_div_natCast n d
  have hkey : (n : ℚ) / (d : ℚ) - ((n / (d : ℤ) : ℤ) : ℚ)
      = ((n - n / (d : ℤ) * (d : ℤ) : ℤ) : ℚ) / (d : ℚ) := by
    push_cast
    field_simp
    ring
  have h1 : ((n : ℚ) / (d : ℚ) - ((n / (d : ℤ) : ℤ) : ℚ) < 1 / 2)
      = (2 * (n - n / (d : ℤ) * (d : ℤ)) < (d : ℤ)) := by
    apply propext
    rw [hkey, div_lt_iff₀ hdQ]
    constructor
    · intro hh
      have hc : ((2 * (n - n / (d : ℤ) * (d : ℤ)) : ℤ) : ℚ) < ((d : ℤ) : ℚ) := by
        push_cast
        push_cast at hh
        linarith
      exact_mod_cast hc
    · intro hh
      have hc : ((2 * (n - n / (d : ℤ) * (d : ℤ)) : ℤ) : ℚ) < ((d : ℤ) : ℚ) := by
        exact_mod_cast hh
      push_cast at hc
      push_cast
      linarith
  have h2 : (1 / 2 < (n : ℚ) / (d : ℚ) - ((n / (d : ℤ) : ℤ) : ℚ))
      = ((d : ℤ) < 2 * (n - n / (d : ℤ) * (d : ℤ))) := by
    apply propext
    rw [hkey, lt_div_iff₀ hdQ]
    constructor
    · intro hh
      have hc : ((d : ℤ) : ℚ) < ((2 * (n - n / (d : ℤ) * (d : ℤ)) : ℤ) : ℚ) := by
        push_cast
        push_cast at hh
        linarith
      exact_mod_cast hc
    · intro hh
      have hc : ((d : ℤ) : ℚ) < ((2 * (n - n / (d : ℤ) * (d : ℤ)) : ℤ) : ℚ) := by
        exact_mod_cast hh
      push_cast at hc
      push_cast
      linarith
  unfold pyRoundHalfEven roundHalfEvenPair
  rw [hfl]
  simp only [h1, h2]

/-- The integer-arithmetic percentage of the parser equals the rational
model `dbm_to_pct` at the literal's value. -/
lemma dbm_to_pct_frac_toRat (d : Decimal) :
    dbm_to_pct_frac d = dbm_to_pct d.toRat := by
  unfold dbm_to_pct_frac dbm_to_pct Decimal.toRat
  have hd : 0 < 10 ^ d.scale := Nat.pos_pow_of_pos _ (by norm_num)
  rw [roundHalfEvenPair_eq (2 * d.num + 200 * (10 ^ d.scale : ℕ)) (10 ^ d.scale) hd]
  have harg : ((2 * d.num + 200 * (10 ^ d.scale : ℕ) : ℤ) : ℚ) / ((10 ^ d.scale : ℕ) : ℚ)
      = 2 * ((d.num : ℚ) / ((10 ^ d.scale : ℕ) : ℚ) + 100) := by
    have hQ : ((10 ^ d.scale : ℕ) : ℚ) ≠ 0 := by positivity
    push_cast
    field_simp
    ring
  rw [harg]

/-- C3: the dBm-to-percentage conversion is a clamped linear map into
`[0, 100]`: any value at or below −100 dBm gives 0, any value at or above
−50 dBm gives 100, the map is monotone nondecreasing everywhere (hence on
`[−100, −50]`), never exceeds 100, and the integer arithmetic used by the
scan parser computes exactly this map on the captured literal's value. -/
theorem dbm_to_pct_clamped_linear_monotone :
    (∀ q : ℚ, q ≤ -100 → dbm_to_pct q = 0)
    ∧ (∀ q : ℚ, -50 ≤ q → dbm_to_pct q = 100)
    ∧ (∀ q r : ℚ, q ≤ r → dbm_to_pct q ≤ dbm_to_pct r)
    ∧ (∀ q : ℚ, dbm_to_pct q ≤ 100)
    ∧ (∀ d : Decimal, dbm_to_pct_frac d = dbm_to_pct d.toRat) := by
  have h0 : pyRoundHalfEven ((0 : ℤ) : ℚ) = 0 := pyRoundHalfEven_intCast 0
  have h100 : pyRoundHalfEven ((100 : ℤ) : ℚ) = 100 := pyRoundHalfEven_intCast 100
  refine ⟨?_, ?_, ?_, ?_, dbm_to_pct_frac_toRat⟩
  · intro q hq
    have hle : 2 * (q + 100) ≤ ((0 : ℤ) : ℚ) := by push_cast; linarith
    have := pyRoundHalfEven_mono hle
    unfold dbm_to_pct
    omega
  · intro q hq
    have hle : ((100 : ℤ) : ℚ) ≤ 2 * (q + 100) := by push_cast; linarith
    have := pyRoundHalfEven_mono hle
    unfold dbm_to_pct
    omega
  · intro q r hqr
    have := pyRoundHalfEven_mono (show 2 * (q + 100) ≤ 2 * (r + 100) by linarith)
    unfold dbm_to_pct
    omega
  · intro q
    unfold dbm_to_pct
    omega

/-- Witness for C3: −40 dBm converts to 100 % and −120 dBm to 0 %. -/
theorem dbm_to_pct_clamped_linear_monotone_witness :
    dbm_to_pct_frac ⟨-40, 0⟩ = 100 ∧ dbm_to_pct_frac ⟨-120, 0⟩ = 0 := by
  have hm40 : (-50 : ℚ) ≤ Decimal.toRat ⟨-40, 0⟩ := by norm_num [Decimal.toRat]
  have hm120 : Decimal.toRat ⟨-120, 0⟩ ≤ -100 := by norm_num [Decimal.toRat]
  exact ⟨(dbm_to_pct_clamped_linear_monotone.2.2.2.2 ⟨-40, 0⟩).trans
      (dbm_to_pct_clamped_linear_monotone.2.1 _ hm40),
    (dbm_to_pct_clamped_linear_monotone.2.2.2.2 ⟨-120, 0⟩).trans
      (dbm_to_pct_clamped_linear_monotone.1 _ hm120)⟩

/-! ## The security classifier on SAE blocks -/

/-- C4 (amended): a block carrying a robust-security (RSN) element and an
SAE authentication-suite marker is classified WPA3 — never WPA2 —
regardless of whether a legacy-WPA element or a PSK marker is also present,
provided the block carries neither an OWE marker nor an enterprise
(`802.1X`) marker, which the classifier checks first. -/
theorem classify_rsn_sae_gives_wpa3 :
    ∀ blk : List (List Char),
      akmMarker "OWE" blk = false →
      akmMarker "802.1X" blk = false →
      hasRSN blk = true →
      akmMarker "SAE" blk = true →
      classify_security blk = "WPA3" := by
  intro blk howe h8021x hrsn hsae
  unfold classify_security
  rw [howe, h8021x, hrsn, hsae]
  simp

/-- Counterexample to C4 as stated: this block contains an RSN element and
an SAE marker, yet the classifier returns `WPA2-Enterprise`, because the
suite line also carries the `802.1X` marker, which is checked first. -/
theorem classify_rsn_sae_gives_wpa3_counterexample :
    hasRSN saeEnterpriseBlock = true
    ∧ akmMarker "SAE" saeEnterpriseBlock = true
    ∧ classify_security saeEnterpriseBlock = "WPA2-Enterprise" := by
  decide

/-- Witness for C4: a transition-mode block with legacy WPA, RSN, PSK and
SAE is classified WPA3. -/
theorem classify_rsn_sae_gives_wpa3_witness :
    classify_security wpa3TransitionBlock = "WPA3" :=
  classify_rsn_sae_gives_wpa3 wpa3TransitionBlock
    (by decide) (by decide) (by decide) (by decide)

/-! ## SSID validation and block discarding -/

/-- C5: a scan block is discarded — contributes no record — when it lacks
an SSID line or its SSID fails validation; the validator rejects the empty
SSID, SSIDs over 32 UTF-8 bytes, SSIDs holding a non-printable character,
and SSIDs whose text starts with a blacklisted header keyword, such as
`capability: foo`, whose whole scan block parses to no records. -/
theorem invalid_ssid_blocks_discarded :
    (∀ blk : List (List Char), blk.findSome? ssidLineValue = none → blockObs blk = none)
    ∧ (∀ (blk : List (List Char)) (raw : List Char),
        blk.findSome? ssidLineValue = some raw →
        _valid_ssid (pyStrip raw) = false → blockObs blk = none)
    ∧ _valid_ssid [] = false
    ∧ (∀ s : List Char, 32 < utf8Len s → _valid_ssid s = false)
    ∧ (∀ s : List Char, (∃ c ∈ s, pyPrintable c = false) → _valid_ssid s = false)
    ∧ _valid_ssid "capability: foo".data = false
    ∧ parse_iw_scan_dump none capabilityScanText = [] := by
  refine ⟨?_, ?_, by decide, ?_, ?_, by decide, by decide⟩
  · intro blk h
    unfold blockObs
    rw [h]
  · intro blk raw h hv
    unfold blockObs
    rw [h]
    simp [hv]
  · intro s h
    unfold _valid_ssid
    split_ifs with h1 h2 h3
    · rfl
    · rfl
    · rfl
    · exfalso
      simp only [Bool.or_eq_true, decide_eq_true_eq] at h2
      exact h2 (Or.inr h)
  · intro s h
    obtain ⟨c, hc, hcp⟩ := h
    unfold _valid_ssid
    split_ifs with h1 h2 h3
    · rfl
    · rfl
    · rfl
    · exfalso
      simp only [Bool.or_eq_true, Bool.not_eq_true', not_or] at h3
      have hall : s.all pyPrintable = true := by
        rcases h3 with ⟨⟨⟨ha, -⟩, -⟩, -⟩
        simpa using ha
      rw [List.all_eq_true] at hall
      have := hall c hc
      rw [hcp] at this
      exact Bool.false_ne_true this

/-- Witness for C5: a 33-byte SSID of ASCII letters is rejected, and a
one-line block with no SSID line yields no record. -/
theorem invalid_ssid_blocks_discarded_witness :
    _valid_ssid (List.replicate 33 'a') = false
    ∧ blockObs ["BSS 11:22:33:44:55:66(on wlan0)".data] = none :=
  ⟨invalid_ssid_blocks_discarded.2.2.2.1 (List.replicate 33 'a') (by decide),
   invalid_ssid_blocks_discarded.1 ["BSS 11:22:33:44:55:66(on wlan0)".data] (by decide)⟩

/-! ## The NTP peer selector -/

/-- `find?` returns the element at the first index satisfying the
predicate. -/
lemma find?_eq_of_first {α : Type} (p : α → Bool) :
    ∀ (l : List α) (i : Nat) (hi : i < l.length),
      p (l.get ⟨i, hi⟩) = true →
      (∀ (j : Nat) (hj : j < i), p (l.get ⟨j, by omega⟩) = false) →
      l.find? p = some (l.get ⟨i, hi⟩) := by
  intro l
  induction l with
  | nil => intro i hi; simp at hi
  | cons x xs ih =>
    intro i hi hp hfirst
    cases i with
    | zero => exact List.find?_cons_of_pos _ hp
    | succ i =>
      have hx : p x = false := hfirst 0 (by omega)
      rw [List.find?_cons_of_neg _ (by simp [hx])]
      exact ih i (by simpa using hi) hp (fun j hj => hfirst (j + 1) (by omega))

/-- C9: the peer selector's priority policy — a `*`-marked line wins
outright (the first such); otherwise the first `+`/`o`-marked line;
otherwise the first line whose seventh whitespace-split column parses as a
positive octal number; otherwise the first line; and only an empty line
list selects nothing. -/
theorem ntp_pick_best_priority :
    ∀ lines : List (List Char),
      (pick_best lines = none ↔ lines = [])
      ∧ (∀ (i : Nat) (hi : i < lines.length),
          lineIsStar (lines.get ⟨i, hi⟩) = true →
          (∀ (j : Nat) (hj : j < i), lineIsStar (lines.get ⟨j, by omega⟩) = false) →
          pick_best lines = some (lines.get ⟨i, hi⟩))
      ∧ ((∀ ln ∈ lines, lineIsStar ln = false) →
          ∀ (i : Nat) (hi : i < lines.length),
          lineIsCand (lines.get ⟨i, hi⟩) = true →
          (∀ (j : Nat) (hj : j < i), lineIsCand (lines.get ⟨j, by omega⟩) = false) →
          pick_best lines = some (lines.get ⟨i, hi⟩))
      ∧ ((∀ ln ∈ lines, lineIsStar ln = false) →
          (∀ ln ∈ lines, lineIsCand ln = false) →
          ∀ (i : Nat) (hi : i < lines.length),
          lineReach (lines.get ⟨i, hi⟩) = true →
          (∀ (j : Nat) (hj : j < i), lineReach (lines.get ⟨j, by omega⟩) = false) →
          pick_best lines = some (lines.get ⟨i, hi⟩))
      ∧ ((∀ ln ∈ lines, lineIsStar ln = false) →
          (∀ ln ∈ lines, lineIsCand ln = false) →
          (∀ ln ∈ lines, lineReach ln = false) →
          pick_best lines = lines.head?) := by
  intro lines
  refine ⟨?_, ?_, ?_, ?_, ?_⟩
  · constructor
    · intro h
      cases lines with
      | nil => rfl
      | cons x xs =>
        exfalso
        unfold pick_best at h
        rcases h1 : (x :: xs).find? lineIsStar with _ | l1 <;> rw [h1] at h
        · rcases h2 : (x :: xs).find? lineIsCand with _ | l2 <;> rw [h2] at h
          · rcases h3 : (x :: xs).find? lineReach with _ | l3 <;> rw [h3] at h
            · simp at h
            · simp at h
          · simp at h
        · simp at h
    · intro h
      subst h
      rfl
  · intro i hi hp hfirst
    unfold pick_best
    rw [find?_eq_of_first lineIsStar lines i hi hp hfirst]
  · intro hstar i hi hp hfirst
    unfold pick_best
    rw [List.find?_eq_none.mpr (by intro x hx; simp [hstar x hx]),
      find?_eq_of_first lineIsCand lines i hi hp hfirst]
  · intro hstar hcand i hi hp hfirst
    unfold pick_best
    rw [List.find?_eq_none.mpr (by intro x hx; simp [hstar x hx]),
      List.find?_eq_none.mpr (by intro x hx; simp [hcand x hx]),
      find?_eq_of_first lineReach lines i hi hp hfirst]
  · intro hstar hcand hreach
    unfold pick_best
    rw [List.find?_eq_none.mpr (by intro x hx; simp [hstar x hx]),
      List.find?_eq_none.mpr (by intro x hx; simp [hcand x hx]),
      List.find?_eq_none.mpr (by intro x hx; simp [hreach x hx])]

/-- Witness for C9: a `*`-marked second line beats a `+`-marked first
line. -/
theorem ntp_pick_best_priority_witness :
    pick_best ["+1.2.3.4 s 2 u 3 64 377".data, "*5.6.7.8 s 2 u 3 64 377".data]
      = some "*5.6.7.8 s 2 u 3 64 377".data := by
  have h := (ntp_pick_best_priority
      ["+1.2.3.4 s 2 u 3 64 377".data, "*5.6.7.8 s 2 u 3 64 377".data]).2.1
    1 (by decide) (by decide)
    (by
      intro j hj
      have hj0 : j = 0 := by omega
      subst hj0
      show lineIsStar "+1.2.3.4 s 2 u 3 64 377".data = false
      decide)
  exact h

/-! ## Hotspot password validation -/

/-- C7 (amended): a non-empty password of length outside 8–63 makes the
handler return 400 with the 8–63 message, with no external tool invoked on
behalf of the password — and no external tool at all when the request
carries no SSID; when the request also carries a non-empty SSID, the
SSID-modify command has already been invoked before the rejection (this is
the only command run).  A password of length within 8–63 proceeds to the
key-mgmt/psk modify commands, in `hotspot_up` as in `hotspot_config`. -/
theorem hotspot_password_length_validation :
    (∀ (pw : String) (ssidRes kmRes pskRes upRes : NmResult)
        (f : Nat → List String) (fuel : Nat),
        pw ≠ "" → pw.length < 8 ∨ 63 < pw.length →
        hotspot_up none (some pw) ssidRes kmRes pskRes upRes f fuel
          = ({ status := 400, error := some "Password must be 8–63 characters for WPA-PSK" }, []))
    ∧ (∀ (form_ssid : Option String) (pw : String) (ssidRes kmRes pskRes upRes : NmResult)
        (f : Nat → List String) (fuel : Nat),
        pw ≠ "" → pw.length < 8 ∨ 63 < pw.length → ssidRes.rc = 0 →
        (hotspot_up form_ssid (some pw) ssidRes kmRes pskRes upRes f fuel).1
            = { status := 400, error := some "Password must be 8–63 characters for WPA-PSK" }
          ∧ ∀ c ∈ (hotspot_up form_ssid (some pw) ssidRes kmRes pskRes upRes f fuel).2,
              ∃ s, c = NmCmd.modSsid s)
    ∧ (∀ (pw : String) (ssidRes kmRes pskRes upRes : NmResult)
        (f : Nat → List String) (fuel : Nat),
        8 ≤ pw.length → pw.length ≤ 63 →
        NmCmd.modKeyMgmt ∈ (hotspot_up none (some pw) ssidRes kmRes pskRes upRes f fuel).2)
    ∧ (∀ (pw : String) (ssidRes kmRes pskRes : NmResult),
        8 ≤ pw.length → pw.length ≤ 63 →
        NmCmd.modKeyMgmt ∈ (hotspot_config none (some pw) ssidRes kmRes pskRes).2) := by
  have hpw_of_len : ∀ pw : String, 8 ≤ pw.length → pw ≠ "" := by
    intro pw h he
    subst he
    simp at h
  have hssid_none : ∀ ssidRes : NmResult,
      hotspotSsidPhase none ssidRes = ("", none, []) := by
    intro ssidRes
    unfold hotspotSsidPhase
    rw [if_pos (show ({ data := pyStrip (none.getD "" : String).data } : String) = "" from rfl)]
    rfl
  have hpsk_reject : ∀ (pw : String) (kmRes pskRes : NmResult),
      pw ≠ "" → pw.length < 8 ∨ 63 < pw.length →
      hotspotPskPhase pw kmRes pskRes
        = (some { status := 400, error := some "Password must be 8–63 characters for WPA-PSK" },
           []) := by
    intro pw kmRes pskRes hne hlen
    unfold hotspotPskPhase
    rw [if_neg hne, if_pos hlen]
  have hpsk_cmds : ∀ (pw : String) (kmRes pskRes : NmResult),
      pw ≠ "" → ¬(pw.length < 8 ∨ 63 < pw.length) →
      NmCmd.modKeyMgmt ∈ (hotspotPskPhase pw kmRes pskRes).2 := by
    intro pw kmRes pskRes hne hlen
    unfold hotspotPskPhase _nm_modify_hotspot_psk
    rw [if_neg hne, if_neg hlen]
    by_cases hkm : kmRes.rc = 0
    · rw [if_neg (by simp [hkm])]
      simp only []
      split_ifs <;> simp
    · rw [if_pos (by simp [hkm])]
      simp only []
      split_ifs <;> simp
  refine ⟨?_, ?_, ?_, ?_⟩
  · intro pw ssidRes kmRes pskRes upRes f fuel hne hlen
    unfold hotspot_up
    simp only [Option.getD_some]
    rw [hssid_none ssidRes, hpsk_reject pw kmRes pskRes hne hlen]
    rfl
  · intro form_ssid pw ssidRes kmRes pskRes upRes f fuel hne hlen hrc
    unfold hotspot_up
    simp only [Option.getD_some]
    rw [hpsk_reject pw kmRes pskRes hne hlen]
    unfold hotspotSsidPhase
    by_cases hs : (⟨pyStrip (form_ssid.getD "").data⟩ : String) = ""
    · rw [if_pos hs]
      exact ⟨rfl, by intro c hc; simp at hc⟩
    · rw [if_neg hs, if_neg (by simp [hrc])]
      refine ⟨rfl, ?_⟩
      intro c hc
      simp only [List.singleton_append, List.mem_singleton] at hc
      exact ⟨_, hc⟩
  · intro pw ssidRes kmRes pskRes upRes f fuel h8 h63
    unfold hotspot_up
    simp only [Option.getD_some]
    rw [hssid_none ssidRes]
    have hmem := hpsk_cmds pw kmRes pskRes (hpw_of_len pw h8) (by omega)
    rcases hpsk : hotspotPskPhase pw kmRes pskRes with ⟨e2, cs2⟩
    rw [hpsk] at hmem
    cases e2 <;> simp [hmem]
  · intro pw ssidRes kmRes pskRes h8 h63
    unfold hotspot_config
    simp only [Option.getD_some]
    rw [hssid_none ssidRes]
    have hmem := hpsk_cmds pw kmRes pskRes (hpw_of_len pw h8) (by omega)
    rcases hpsk : hotspotPskPhase pw kmRes pskRes with ⟨e2, cs2⟩
    rw [hpsk] at hmem
    cases e2 <;> simp [hmem]

/-- Counterexample to C7 as stated: a request carrying both a non-empty
SSID and a 7-character password is answered 400 with the 8–63 message, but
the SSID-modify external command has already been invoked before that
rejection, so the validation does not precede every external tool call. -/
theorem hotspot_password_length_validation_counterexample :
    hotspot_up (some "x") (some "1234567") ⟨0⟩ ⟨0⟩ ⟨0⟩ ⟨0⟩ (fun _ => []) 0
      = ({ status := 400, error := some "Password must be 8–63 characters for WPA-PSK" },
         [NmCmd.modSsid "x"]) := by
  decide

/-- Witness for C7: a 7-character password with no SSID is rejected with no
command run, and an 8-character password reaches the key-mgmt modify. -/
theorem hotspot_password_length_validation_witness :
    hotspot_up none (some "1234567") ⟨0⟩ ⟨0⟩ ⟨0⟩ ⟨0⟩ (fun _ => []) 0
      = ({ status := 400, error := some "Password must be 8–63 characters for WPA-PSK" }, [])
    ∧ NmCmd.modKeyMgmt ∈ (hotspot_up none (some "12345678") ⟨0⟩ ⟨0⟩ ⟨0⟩ ⟨0⟩ (fun _ => []) 3).2 :=
  ⟨hotspot_password_length_validation.1 "1234567" ⟨0⟩ ⟨0⟩ ⟨0⟩ ⟨0⟩ (fun _ => []) 0
      (by decide) (by decide),
   hotspot_password_length_validation.2.2.1 "12345678" ⟨0⟩ ⟨0⟩ ⟨0⟩ ⟨0⟩ (fun _ => []) 3
      (by decide) (by decide)⟩

/-! ## Lemmas about the scan dedup -/

lemma find?_eq_head?_filter {α : Type} (p : α → Bool) :
    ∀ l : List α, l.find? p = (l.filter p).head? := by
  intro l
  induction l with
  | nil => rfl
  | cons x xs ih =>
    by_cases hx : p x = true
    · rw [List.find?_cons_of_pos _ hx, List.filter_cons_of_pos hx]
      rfl
    · rw [List.find?_cons_of_neg _ (by simpa using hx),
        List.filter_cons_of_neg (by simpa using hx), ih]

/-- The replacement map of the dedup dict update does not change any
record's SSID-membership test. -/
lemma dedup_replace_filter (m : List NetRec) (r : NetRec) (t : String) :
    List.filter (fun p => p.ssid == t) (m.map fun p => if p.ssid == r.ssid then r else p)
      = (m.filter fun p => p.ssid == t).map fun p => if p.ssid == r.ssid then r else p := by
  rw [List.filter_map]
  congr 1
  apply List.filter_congr
  intro x _
  by_cases hxs : (x.ssid == r.ssid) = true
  · have hxr := beq_iff_eq.mp hxs
    simp only [Function.comp_apply, if_pos hxs]
    rw [hxr]
  · simp only [Function.comp_apply, if_neg hxs]

/-- `dedupStep` keeps the dict property: at most one record per SSID. -/
lemma dedupStep_filter_len (m : List NetRec) (r : NetRec)
    (hm : ∀ t : String, (m.filter fun p => p.ssid == t).length ≤ 1) :
    ∀ t : String, ((dedupStep m r).filter fun p => p.ssid == t).length ≤ 1 := by
  intro t
  unfold dedupStep
  rcases hfind : m.find? (fun p => p.ssid == r.ssid) with _ | prev
  · rw [hfind, List.filter_append]
    by_cases ht : (r.ssid == t) = true
    · have hempty : (m.filter fun p => p.ssid == t) = [] := by
        rw [List.filter_eq_nil_iff]
        intro a ha hat
        have h0 := List.find?_eq_none.mp hfind a ha
        apply h0
        rw [beq_iff_eq] at hat ⊢
        rw [hat, ← beq_iff_eq.mp ht]
      rw [hempty]
      cases hra : (r.ssid == t) <;> simp [List.filter_singleton, hra]
    · have hr1 : List.filter (fun p => p.ssid == t) [r] = [] := by
        simp only [List.filter, ht]
      rw [hr1, List.append_nil]
      exact hm t
  · rw [hfind]
    dsimp only
    split_ifs with hsig
    · rw [dedup_replace_filter, List.length_map]
      exact hm t
    · exact hm t

/-- The dict built by folding `dedupStep` holds, for each SSID, exactly the
first-seen observation replaced by every strictly better one. -/
lemma dedup_go (s : String) :
    ∀ (obs m : List NetRec),
      (∀ t : String, (m.filter fun p => p.ssid == t).length ≤ 1) →
      ((obs.foldl dedupStep m).filter fun p => p.ssid == s)
        = (bestFrom ((m.filter fun p => p.ssid == s).head?)
            (obs.filter fun p => p.ssid == s)).toList := by
  intro obs
  induction obs with
  | nil =>
    intro m hm
    simp only [List.foldl_nil, List.filter_nil]
    rcases hq : m.filter (fun p => p.ssid == s) with _ | ⟨x, xs⟩
    · rw [hq]
      rfl
    · have hlen := hm s
      rw [hq] at hlen
      have hxs : xs = [] := by
        simp only [List.length_cons] at hlen
        exact List.eq_nil_of_length_eq_zero (by omega)
      subst hxs
      rw [hq]
      rfl
  | cons r obs' ih =>
    intro m hm
    rw [List.foldl_cons]
    by_cases hr : (r.ssid == s) = true
    · have hrs : r.ssid = s := beq_iff_eq.mp hr
      have hfc : List.filter (fun p => p.ssid == s) (r :: obs')
          = r :: List.filter (fun p => p.ssid == s) obs' := List.filter_cons_of_pos hr
      rw [hfc]
      rcases hfind : m.find? (fun p => p.ssid == r.ssid) with _ | prev
      · have hmq : m.filter (fun p => p.ssid == s) = [] := by
          rw [List.filter_eq_nil_iff]
          intro a ha hat
          have h0 := List.find?_eq_none.mp hfind a ha
          apply h0
          rw [beq_iff_eq] at hat ⊢
          rw [hat, hrs]
        have hstep : (dedupStep m r).filter (fun p => p.ssid == s) = [r] := by
          unfold dedupStep
          rw [hfind, List.filter_append, hmq, List.nil_append, List.filter_singleton, hr]
          rfl
        rw [ih (dedupStep m r) (dedupStep_filter_len m r hm), hstep, hmq]
        rfl
      · have hprev : (prev.ssid == r.ssid) = true := by
          have h := List.find?_some hfind
          simpa using h
        have hmq : m.filter (fun p => p.ssid == s) = [prev] := by
          have h1 : m.find? (fun p => p.ssid == s) = some prev := by
            rw [← hrs]
            exact hfind
          rw [find?_eq_head?_filter] at h1
          have hlen := hm s
          rcases hq2 : m.filter (fun p => p.ssid == s) with _ | ⟨x, xs⟩
          · rw [hq2] at h1
            simp at h1
          · rw [hq2] at h1 hlen
            simp only [List.head?_cons, Option.some.injEq] at h1
            have hxs : xs = [] := by
              simp only [List.length_cons] at hlen
              exact List.eq_nil_of_length_eq_zero (by omega)
            rw [hq2, h1, hxs]
        by_cases hsig : sigval prev < sigval r
        · have hstep : (dedupStep m r).filter (fun p => p.ssid == s) = [r] := by
            unfold dedupStep
            rw [hfind]
            dsimp only
            rw [if_pos hsig, dedup_replace_filter, hmq, List.map_singleton, if_pos hprev]
          rw [ih (dedupStep m r) (dedupStep_filter_len m r hm), hstep, hmq]
          simp only [List.head?_cons, bestFrom, List.foldl_cons, chooseBetter]
          rw [if_pos hsig]
        · have hstep : (dedupStep m r).filter (fun p => p.ssid == s) = [prev] := by
            unfold dedupStep
            rw [hfind]
            dsimp only
            rw [if_neg hsig]
            exact hmq
          rw [ih (dedupStep m r) (dedupStep_filter_len m r hm), hstep, hmq]
          simp only [List.head?_cons, bestFrom, List.foldl_cons, chooseBetter]
          rw [if_neg hsig]
    · have hfc : List.filter (fun p => p.ssid == s) (r :: obs')
          = List.filter (fun p => p.ssid == s) obs' :=
        List.filter_cons_of_neg (by simpa using hr)
      rw [hfc]
      have hstep : (dedupStep m r).filter (fun p => p.ssid == s)
          = m.filter (fun p => p.ssid == s) := by
        unfold dedupStep
        rcases hfind : m.find? (fun p => p.ssid == r.ssid) with _ | prev
        · rw [hfind, List.filter_append, List.filter_singleton,
            (show (r.ssid == s) = false by simpa using hr)]
          simp
        · rw [hfind]
          dsimp only
          split_ifs with hsig
          · rw [dedup_replace_filter]
            have hmembers : ∀ x ∈ m.filter (fun p => p.ssid == s),
                (if x.ssid == r.ssid then r else x) = x := by
              intro x hx
              have hxq : (x.ssid == s) = true := by
                have h := List.of_mem_filter hx
                simpa using h
              have hxr : ¬ (x.ssid == r.ssid) = true := by
                intro hxr
                apply hr
                rw [beq_iff_eq] at hxq hxr ⊢
                rw [← hxr, hxq]
              rw [if_neg hxr]
            calc (m.filter (fun p => p.ssid == s)).map
                  (fun p => if p.ssid == r.ssid then r else p)
                = (m.filter (fun p => p.ssid == s)).map id := List.map_congr_left hmembers
              _ = m.filter (fun p => p.ssid == s) := List.map_id _
          · rfl
      rw [ih (dedupStep m r) (dedupStep_filter_len m r hm), hstep]

lemma insertDesc_perm (r : NetRec) : ∀ l : List NetRec, (insertDesc r l).Perm (r :: l) := by
  intro l
  induction l with
  | nil => exact List.Perm.refl _
  | cons x xs ih =>
    unfold insertDesc
    split_ifs with h
    · exact List.Perm.refl _
    · exact (List.Perm.cons x ih).trans (List.Perm.swap r x xs)

lemma sortDesc_perm (l : List NetRec) : (sortDesc l).Perm l := by
  induction l with
  | nil => exact List.Perm.refl _
  | cons x xs ih =>
    exact (insertDesc_perm x (sortDesc xs)).trans (List.Perm.cons x ih)

/-- Every record held by the dedup dict came from the accumulator or from
the observation list. -/
lemma mem_foldl_dedupStep : ∀ (obs m : List NetRec) (x : NetRec),
    x ∈ obs.foldl dedupStep m → x ∈ m ∨ x ∈ obs := by
  intro obs
  induction obs with
  | nil =>
    intro m x h
    exact Or.inl h
  | cons r obs' ih =>
    intro m x h
    rw [List.foldl_cons] at h
    rcases ih (dedupStep m r) x h with hm | hobs
    · unfold dedupStep at hm
      rcases hfind : m.find? (fun p => p.ssid == r.ssid) with _ | prev <;> rw [hfind] at hm
      · rcases List.mem_append.mp hm with h1 | h1
        · exact Or.inl h1
        · simp only [List.mem_singleton] at h1
          subst h1
          exact Or.inr (by simp)
      · dsimp only at hm
        split_ifs at hm with hsig
        · rcases List.mem_map.mp hm with ⟨p, hp, hpe⟩
          by_cases hps : (p.ssid == r.ssid) = true
          · rw [if_pos hps] at hpe
            subst hpe
            exact Or.inr (by simp)
          · rw [if_neg hps] at hpe
            subst hpe
            exact Or.inl hp
        · exact Or.inl hm
    · exact Or.inr (List.mem_cons_of_mem r hobs)

lemma dbm_to_pct_frac_le_100 (d : Decimal) : dbm_to_pct_frac d ≤ 100 := by
  unfold dbm_to_pct_frac
  have h := min_le_left (100 : ℤ)
    (max 0 (roundHalfEvenPair (2 * d.num + 200 * (10 ^ d.scale : ℕ)) ((10 ^ d.scale : ℕ) : ℤ)))
  omega

/-- Every record a block contributes has a validated SSID and a signal
percentage of at most 100. -/
lemma blockObs_wellformed : ∀ (blk : List (List Char)) (rec : NetRec),
    blockObs blk = some rec →
    _valid_ssid rec.ssid.data = true ∧ ∀ n, rec.signal = some n → n ≤ 100 := by
  intro blk rec h
  unfold blockObs at h
  rcases hss : blk.findSome? ssidLineValue with _ | raw <;> rw [hss] at h
  · simp at h
  · dsimp only at h
    split_ifs at h with hv
    rw [Option.some.injEq] at h
    subst h
    refine ⟨by simpa using hv, ?_⟩
    intro n hn
    dsimp only at hn
    rw [Option.map_eq_some'] at hn
    rcases hn with ⟨d, -, hdn⟩
    rw [← hdn]
    exact dbm_to_pct_frac_le_100 d

/-- C2: whenever a scan dump holds at least one valid observation of an
SSID, the parsed output holds exactly one record for it, namely the
observation `bestFirst` keeps: the first seen, replaced by each strictly
stronger one — so equal signals keep the first seen; and concretely two
`Home` blocks at −40 dBm and −70 dBm reduce to one record whose signal
percentage (100) derives from −40 dBm. -/
theorem scan_dedup_one_record_per_ssid :
    (∀ (cur : Option String) (text : String) (s : String) (b : NetRec),
        bestFirst ((obsOf text).filter fun r => r.ssid == s) = some b →
        (parse_iw_scan_dump cur text).countP (fun r => r.ssid == s) = 1
          ∧ ∀ r ∈ parse_iw_scan_dump cur text, r.ssid = s → r = setInuse cur b)
    ∧ parse_iw_scan_dump none homeScanText
        = [{ ssid := "Home", signal := some 100, security := "open", inuse := false }] := by
  refine ⟨?_, by decide⟩
  intro cur text s b hbest
  have hfilter : ((obsOf text).foldl dedupStep []).filter (fun r => r.ssid == s) = [b] := by
    rw [dedup_go s (obsOf text) [] (by intro t; simp)]
    simp only [List.filter_nil, List.head?_nil]
    show (bestFirst ((obsOf text).filter fun r => r.ssid == s)).toList = [b]
    rw [hbest]
    rfl
  constructor
  · unfold parse_iw_scan_dump
    rw [List.countP_map]
    have hcomp : ((fun r => r.ssid == s) ∘ setInuse cur) = fun r => r.ssid == s := by
      funext r
      rfl
    rw [hcomp, (sortDesc_perm _).countP_eq, List.countP_eq_length_filter, hfilter]
    rfl
  · intro r hr hrs
    unfold parse_iw_scan_dump at hr
    rcases List.mem_map.mp hr with ⟨x, hx, hxe⟩
    have hxD := (sortDesc_perm _).mem_iff.mp hx
    have hxq : (x.ssid == s) = true := by
      rw [beq_iff_eq]
      rw [← hxe] at hrs
      exact hrs
    have hxf : x ∈ ((obsOf text).foldl dedupStep []).filter (fun r => r.ssid == s) :=
      List.mem_filter.mpr ⟨hxD, hxq⟩
    rw [hfilter] at hxf
    simp only [List.mem_singleton] at hxf
    rw [← hxe, hxf]

/-- Witness for C2: in the two-block `Home` dump the output holds exactly
one `Home` record. -/
theorem scan_dedup_one_record_per_ssid_witness :
    (parse_iw_scan_dump none homeScanText).countP (fun r => r.ssid == "Home") = 1 :=
  (scan_dedup_one_record_per_ssid.1 none homeScanText "Home"
    { ssid := "Home", signal := some 100, security := "open", inuse := false }
    (by decide)).1

/-- C8: the scan parser is a total function (it is a Lean function, so it
cannot raise); every record it emits is well-formed — validated SSID,
signal percentage at most 100 — and a malformed, truncated dump degrades
to the empty record list. -/
theorem scan_parser_total :
    (∀ (cur : Option String) (text : String), ∀ r ∈ parse_iw_scan_dump cur text,
        _valid_ssid r.ssid.data = true ∧ ∀ n, r.signal = some n → n ≤ 100)
    ∧ parse_iw_scan_dump none malformedScanText = [] := by
  refine ⟨?_, by decide⟩
  intro cur text r hr
  unfold parse_iw_scan_dump at hr
  rcases List.mem_map.mp hr with ⟨x, hx, hxe⟩
  have hxD := (sortDesc_perm _).mem_iff.mp hx
  rcases mem_foldl_dedupStep (obsOf text) [] x hxD with h0 | hobs
  · simp at h0
  · unfold obsOf at hobs
    rcases List.mem_filterMap.mp hobs with ⟨blk, _, hblk⟩
    obtain ⟨hvalid, hsig⟩ := blockObs_wellformed blk x hblk
    subst hxe
    exact ⟨hvalid, fun n hn => hsig n hn⟩

/-- Witness for C8: the record parsed from the `Home` dump is well-formed. -/
theorem scan_parser_total_witness :
    _valid_ssid
        ({ ssid := "Home", signal := some 100, security := "open", inuse := false } : NetRec).ssid.data
      = true
    ∧ ∀ n, ({ ssid := "Home", signal := some 100, security := "open", inuse := false } : NetRec).signal
        = some n → n ≤ 100 :=
  scan_parser_total.1 none homeScanText
    { ssid := "Home", signal := some 100, security := "open", inuse := false } (by decide)

end GoingDark
